import Mathlib

/-!
Verification of the serial_lcd command protocol encoder (lcd.go).

The package wraps a byte sink (an io.ReadWriteCloser) and encodes each
display operation as a byte sequence written to the sink in a single
Write call.  We model bytes as natural numbers (every literal is below
256; the one place Go byte arithmetic can overflow, the shift in
MakeChar, is modelled with an explicit % 256).  A sink is a function
from the byte list of one write call to the pair Go's Write returns:
a byte count and an optional error (none = nil error).  Each encoder
operation returns the trace of write calls it performs (a list of byte
lists, one entry per Write call) together with the error value it
returns to the caller; Raw performs exactly one write call, and every
other operation is a single call to Raw, exactly as in the source.
-/

namespace SerialLcd

/-- All commands start with the COMMAND byte (0xFE). -/
def COMMAND : Nat := 0xFE

/-- Turns the backlight on; expects an extra arg that is ignored. -/
def BACKLIGHT_ON : Nat := 0x42

/-- Turns the backlight off. -/
def BACKLIGHT_OFF : Nat := 0x46

/-- Set brightness: expects arg for brightness 0-255. -/
def BRIGHTNESS : Nat := 0x99

/-- Set contrast: expects arg for contrast 0-255. -/
def CONTRAST : Nat := 0x91

/-- Clear the display. -/
def CLEAR : Nat := 0x58

/-- Autoscroll on opcode (the state value is itself the opcode). -/
def AUTOSCROLL_ON : Nat := 0x51

/-- Autoscroll off opcode (the state value is itself the opcode). -/
def AUTOSCROLL_OFF : Nat := 0x52

/-- Set the position of the text entry cursor (1-based column and row). -/
def SET_CURSOR_POSITION : Nat := 0x47

/-- Place the cursor at location (1, 1). -/
def GO_HOME : Nat := 0x48

/-- Move cursor back one space (wraps). -/
def CURSOR_BACK : Nat := 0x4C

/-- Move cursor forward one space (wraps). -/
def CURSOR_FORWARD : Nat := 0x4D

/-- Turn on the underline cursor. -/
def UNDERLINE_CURSOR_ON : Nat := 0x4A

/-- Turn off the underline cursor. -/
def UNDERLINE_CURSOR_OFF : Nat := 0x4B

/-- Turn on the blinking block cursor. -/
def BLOCK_CURSOR_ON : Nat := 0x53

/-- Turn off the blinking block cursor. -/
def BLOCK_CURSOR_OFF : Nat := 0x54

/-- Sets the backlight to the red, green and blue component colors. -/
def SET_RGB_BACKLIGHT_COLOR : Nat := 0xD0

/-- Configure the backpack to the size of the attached display. -/
def SET_LCD_SIZE : Nat := 0xD1

/-- Create a custom character in a spot between 0 and 7; 8 glyph bytes follow. -/
def CREATE_CUSTOM_CHARACTER : Nat := 0x4E

/-- The LCD handle: in Go it wraps an io.ReadWriteCloser; the only part the
encoder uses is Write, modelled as a function from the bytes of one write
call to the (count, error) pair Write returns. -/
structure LCD where
  sink : List Nat → Nat × Option String

/-- dropN ignores the number of bytes written and just returns the error. -/
def dropN (n : Nat) (e : Option String) : Option String := e

/-- Raw writes a series of raw bytes to the LCD: one single call to the
sink's write; the result pairs the trace of write calls (here exactly one)
with the error returned to the caller, obtained by dropN from the sink's
write result. -/
def LCD.Raw (l : LCD) (bytes : List Nat) : List (List Nat) × Option String :=
  ([bytes], dropN (l.sink bytes).1 (l.sink bytes).2)

/-- SetBG sets the background color. The RGB values should each be 0-255. -/
def LCD.SetBG (l : LCD) (r g b : Nat) : List (List Nat) × Option String :=
  l.Raw [COMMAND, SET_RGB_BACKLIGHT_COLOR, r, g, b]

/-- Off turns the LCD backlight off. -/
def LCD.Off (l : LCD) : List (List Nat) × Option String :=
  l.Raw [COMMAND, BACKLIGHT_OFF]

/-- On turns the LCD backlight on (the 0 is the ignored dummy argument). -/
def LCD.On (l : LCD) : List (List Nat) × Option String :=
  l.Raw [COMMAND, BACKLIGHT_ON, 0]

/-- SetBrightness sets the LCD backlight brightness, 0-255. -/
def LCD.SetBrightness (l : LCD) (b : Nat) : List (List Nat) × Option String :=
  l.Raw [COMMAND, BRIGHTNESS, b]

/-- SetContrast sets the LCD backlight contrast, 0-255. -/
def LCD.SetContrast (l : LCD) (c : Nat) : List (List Nat) × Option String :=
  l.Raw [COMMAND, CONTRAST, c]

/-- SetAutoscroll: the autoscroll state byte is itself the opcode. -/
def LCD.SetAutoscroll (l : LCD) (a : Nat) : List (List Nat) × Option String :=
  l.Raw [COMMAND, a]

/-- SetSize configures the display size. -/
def LCD.SetSize (l : LCD) (cols rows : Nat) : List (List Nat) × Option String :=
  l.Raw [COMMAND, SET_LCD_SIZE, cols, rows]

/-- Clear clears the display. -/
def LCD.Clear (l : LCD) : List (List Nat) × Option String :=
  l.Raw [COMMAND, CLEAR]

/-- SetCursor emits the underline-cursor command and the block-cursor
command back to back in one Raw call. -/
def LCD.SetCursor (l : LCD) (u b : Nat) : List (List Nat) × Option String :=
  l.Raw [COMMAND, u, COMMAND, b]

/-- Home moves the cursor home (to 1,1). -/
def LCD.Home (l : LCD) : List (List Nat) × Option String :=
  l.Raw [COMMAND, GO_HOME]

/-- MoveTo sets the cursor position; row/col numbering starts at 1,1. -/
def LCD.MoveTo (l : LCD) (col row : Nat) : List (List Nat) × Option String :=
  l.Raw [COMMAND, SET_CURSOR_POSITION, col, row]

/-- MoveForward moves the cursor forward one space. -/
def LCD.MoveForward (l : LCD) : List (List Nat) × Option String :=
  l.Raw [COMMAND, CURSOR_FORWARD]

/-- MoveBack moves the cursor back one space. -/
def LCD.MoveBack (l : LCD) : List (List Nat) × Option String :=
  l.Raw [COMMAND, CURSOR_BACK]

/-- CreateCustomChar writes the custom-character command, the spot byte and
the 8 glyph bytes in one Raw call (append of the 3-byte header and the
glyph slice, as in the source). -/
def LCD.CreateCustomChar (l : LCD) (spot : Nat) (c : List Nat) :
    List (List Nat) × Option String :=
  l.Raw ([COMMAND, CREATE_CUSTOM_CHARACTER, spot] ++ c)

/-- One step of the MakeChar inner loop: shift the accumulator left one bit
(byte arithmetic, so modulo 256) and set the low bit when the character is
neither a period nor a space. -/
def charStep (pixels : Nat) (c : Char) : Nat :=
  let shifted := (pixels * 2) % 256
  if c ≠ '.' ∧ c ≠ ' ' then shifted ||| 1 else shifted

/-- The byte computed for one row of MakeChar: scan the row's characters
left to right starting from 0, applying charStep for each. -/
def makeCharRow (line : List Char) : Nat :=
  line.foldl charStep 0

/-- MakeChar converts the rows of a character pattern into the bytes
defining a single char: row i of the input becomes byte i of the output.
In Go the input is a fixed [8]string array; rows are modelled as lists of
characters and the pattern as a list of rows, so the fixed count 8 appears
as a hypothesis where a claim needs it. -/
def MakeChar (lines : List (List Char)) : List Nat :=
  lines.map makeCharRow

/-- The framed operations of the command encoder, one constructor per
exported method that frames its bytes with the COMMAND prefix. -/
inductive Op where
  | setBG (r g b : Nat)
  | backlightOn
  | backlightOff
  | setBrightness (b : Nat)
  | setContrast (c : Nat)
  | setAutoscroll (a : Nat)
  | setSize (cols rows : Nat)
  | clear
  | setCursor (u b : Nat)
  | home
  | moveTo (col row : Nat)
  | moveForward
  | moveBack
  | createCustomChar (spot : Nat) (c : List Nat)

/-- Dispatch a framed operation to the corresponding encoder method. -/
def runOp (l : LCD) : Op → List (List Nat) × Option String
  | .setBG r g b => l.SetBG r g b
  | .backlightOn => l.On
  | .backlightOff => l.Off
  | .setBrightness b => l.SetBrightness b
  | .setContrast c => l.SetContrast c
  | .setAutoscroll a => l.SetAutoscroll a
  | .setSize cols rows => l.SetSize cols rows
  | .clear => l.Clear
  | .setCursor u b => l.SetCursor u b
  | .home => l.Home
  | .moveTo col row => l.MoveTo col row
  | .moveForward => l.MoveForward
  | .moveBack => l.MoveBack
  | .createCustomChar spot c => l.CreateCustomChar spot c

/-- The opcode of each framed operation, transcribed from the command
table of the specification (for the cursor and autoscroll operations the
state byte is itself the opcode). -/
def specOpcode : Op → Nat
  | .setBG _ _ _ => SET_RGB_BACKLIGHT_COLOR
  | .backlightOn => BACKLIGHT_ON
  | .backlightOff => BACKLIGHT_OFF
  | .setBrightness _ => BRIGHTNESS
  | .setContrast _ => CONTRAST
  | .setAutoscroll a => a
  | .setSize _ _ => SET_LCD_SIZE
  | .clear => CLEAR
  | .setCursor u _ => u
  | .home => GO_HOME
  | .moveTo _ _ => SET_CURSOR_POSITION
  | .moveForward => CURSOR_FORWARD
  | .moveBack => CURSOR_BACK
  | .createCustomChar _ _ => CREATE_CUSTOM_CHARACTER

/-- The argument bytes following the opcode of each framed operation, in
the fixed opcode-defined order of the specification's command table (for
the set-cursor operation the bytes after the first opcode are the second
framed command, COMMAND then the block-cursor opcode). -/
def specArgs : Op → List Nat
  | .setBG r g b => [r, g, b]
  | .backlightOn => [0]
  | .backlightOff => []
  | .setBrightness b => [b]
  | .setContrast c => [c]
  | .setAutoscroll _ => []
  | .setSize cols rows => [cols, rows]
  | .clear => []
  | .setCursor _ b => [COMMAND, b]
  | .home => []
  | .moveTo col row => [col, row]
  | .moveForward => []
  | .moveBack => []
  | .createCustomChar spot c => spot :: c

/-- The byte list each framed operation passes to Raw, transcribed case by
case from the source methods. -/
def opBytes : Op → List Nat
  | .setBG r g b => [COMMAND, SET_RGB_BACKLIGHT_COLOR, r, g, b]
  | .backlightOn => [COMMAND, BACKLIGHT_ON, 0]
  | .backlightOff => [COMMAND, BACKLIGHT_OFF]
  | .setBrightness b => [COMMAND, BRIGHTNESS, b]
  | .setContrast c => [COMMAND, CONTRAST, c]
  | .setAutoscroll a => [COMMAND, a]
  | .setSize cols rows => [COMMAND, SET_LCD_SIZE, cols, rows]
  | .clear => [COMMAND, CLEAR]
  | .setCursor u b => [COMMAND, u, COMMAND, b]
  | .home => [COMMAND, GO_HOME]
  | .moveTo col row => [COMMAND, SET_CURSOR_POSITION, col, row]
  | .moveForward => [COMMAND, CURSOR_FORWARD]
  | .moveBack => [COMMAND, CURSOR_BACK]
  | .createCustomChar spot c => [COMMAND, CREATE_CUSTOM_CHARACTER, spot] ++ c

/-- A concrete always-succeeding sink: reports the whole byte list as
written and a nil error, used to instantiate universally quantified
statements at a concrete handle. -/
def okSink : LCD := ⟨fun bytes => (bytes.length, none)⟩

/-- Or-ing the low bit into a byte keeps it a byte. -/
lemma or_one_lt_256 (s : Nat) (hs : s < 256) : s ||| 1 < 256 := by
  have h8 : s < 2 ^ 8 := by
    norm_num
    exact hs
  have h1 : (1 : Nat) < 2 ^ 8 := by norm_num
  have h := Nat.or_lt_two_pow h8 h1
  norm_num at h
  exact h

/-- One charStep keeps the accumulator below 256. -/
lemma charStep_lt (p : Nat) (c : Char) : charStep p c < 256 := by
  have h2 : (p * 2) % 256 < 256 := Nat.mod_lt _ (by norm_num)
  by_cases h : c ≠ '.' ∧ c ≠ ' '
  · simpa [charStep, h] using or_one_lt_256 _ h2
  · simpa [charStep, h] using h2

/-- Folding charStep keeps the accumulator below 256. -/
lemma foldl_charStep_lt (line : List Char) :
    ∀ p : Nat, p < 256 → line.foldl charStep p < 256 := by
  induction line with
  | nil => intro p hp; simpa using hp
  | cons c cs ih =>
      intro p hp
      rw [List.foldl_cons]
      exact ih _ (charStep_lt p c)

/-- Every row byte computed by MakeChar is below 256. -/
lemma makeCharRow_lt (line : List Char) : makeCharRow line < 256 :=
  foldl_charStep_lt line 0 (by norm_num)

/-- Folding charStep over characters that are all off markers multiplies
the accumulator by two per character, truncated to a byte. -/
lemma foldl_charStep_off (ext : List Char) :
    ∀ p : Nat, p < 256 → (∀ c ∈ ext, c = '.' ∨ c = ' ') →
      ext.foldl charStep p = (p * 2 ^ ext.length) % 256 := by
  induction ext with
  | nil =>
      intro p hp _
      simpa using (Nat.mod_eq_of_lt hp).symm
  | cons c cs ih =>
      intro p hp hoff
      have hc : c = '.' ∨ c = ' ' := hoff c (List.mem_cons_self c cs)
      have hno : ¬(c ≠ '.' ∧ c ≠ ' ') := by
        rcases hc with h | h <;> simp [h]
      have hstep : charStep p c = (p * 2) % 256 := by
        simp [charStep, hno]
      rw [List.foldl_cons, hstep,
        ih ((p * 2) % 256) (Nat.mod_lt _ (by norm_num))
          (fun d hd => hoff d (List.mem_cons_of_mem c hd))]
      rw [List.length_cons, Nat.mod_mul_mod, pow_succ]
      congr 1
      ring

/-- Folding charStep starting below 2 ^ k over a row that fits in the byte
stays below 2 ^ (k + length): no shift ever reaches the truncation. -/
lemma foldl_charStep_lt_pow (line : List Char) :
    ∀ p k : Nat, p < 2 ^ k → k + line.length ≤ 8 →
      line.foldl charStep p < 2 ^ (k + line.length) := by
  induction line with
  | nil => intro p k hp _; simpa using hp
  | cons c cs ih =>
      intro p k hp hk
      rw [List.foldl_cons]
      have hlen : (k + 1) + cs.length ≤ 8 := by
        simp [List.length_cons] at hk
        omega
      have hp2 : p * 2 < 2 ^ (k + 1) := by
        rw [pow_succ]
        exact Nat.mul_lt_mul_of_pos_right hp (by norm_num)
      have hsmall : p * 2 < 256 := by
        have hle : 2 ^ (k + 1) ≤ 2 ^ 8 := Nat.pow_le_pow_right (by norm_num) (by omega)
        have h256 : (2 : Nat) ^ 8 = 256 := by norm_num
        omega
      have hmod : (p * 2) % 256 = p * 2 := Nat.mod_eq_of_lt hsmall
      have hstep : charStep p c < 2 ^ (k + 1) := by
        by_cases h : c ≠ '.' ∧ c ≠ ' '
        · simp only [charStep, hmod]
          rw [if_pos h]
          exact Nat.or_lt_two_pow hp2 (Nat.one_lt_two_pow_iff.mpr (by omega))
        · simp only [charStep, hmod]
          rw [if_neg h]
          exact hp2
      have hrec := ih (charStep p c) (k + 1) hstep hlen
      have e : k + (c :: cs).length = (k + 1) + cs.length := by
        simp [List.length_cons]
        omega
      rw [e]
      exact hrec

/-- A row shorter than the byte width compiles to a value whose bits all
lie below the row length: absent characters contribute zero bits. -/
lemma makeCharRow_lt_pow (line : List Char) (h : line.length ≤ 8) :
    makeCharRow line < 2 ^ line.length := by
  have hres := foldl_charStep_lt_pow line 0 0 (by norm_num) (by omega)
  simpa [makeCharRow] using hres

/-- C1: every framed operation of the command encoder emits the COMMAND
prefix byte 0xFE immediately followed by the opcode, then the argument
bytes in the fixed opcode-defined order, and the whole sequence is passed
to the sink in a single write call, never split across writes. -/
theorem framed_commands_single_write (l : LCD) (op : Op) :
    (runOp l op).1 = [COMMAND :: specOpcode op :: specArgs op] := by
  cases op <;> rfl

/-- C2: for r, g, b bytes, SetBG performs exactly one write of the 5-byte
sequence 0xFE, 0xD0, r, g, b, and returns the sink's error unchanged with
no validation of the values. -/
theorem setBG_exact (l : LCD) (r g b : Nat)
    (hr : r < 256) (hg : g < 256) (hb : b < 256) :
    l.SetBG r g b = ([[0xFE, 0xD0, r, g, b]], (l.sink [0xFE, 0xD0, r, g, b]).2) :=
  rfl

/-- Witness for C2: SetBG at the concrete bytes (0,0,255) on the concrete
sink emits exactly 0xFE, 0xD0, 0, 0, 255 in one write. -/
theorem setBG_exact_witness :
    okSink.SetBG 0 0 255 = ([[0xFE, 0xD0, 0, 0, 255]], none) := by
  have h := setBG_exact okSink 0 0 255 (by decide) (by decide) (by decide)
  simpa [okSink] using h

/-- C7: Raw writes its bytes to the sink verbatim in a single write call
with no framing added; in particular the literal text Hi emits exactly the
two bytes 72 and 105 (the codes of H and i). -/
theorem raw_verbatim :
    (∀ (l : LCD) (bytes : List Nat), l.Raw bytes = ([bytes], (l.sink bytes).2)) ∧
    (∀ l : LCD, (l.Raw [72, 105]).1 = [[72, 105]]) :=
  ⟨fun _ _ => rfl, fun _ => rfl⟩

/-- C8: every encoder operation returns exactly the error value the sink's
write returned for the bytes it wrote, dropping only the byte count: a
failure is propagated unchanged (no retry, no wrapping) and a success is
returned as success; the same holds for Raw itself. -/
theorem error_propagation :
    (∀ (l : LCD) (op : Op), (runOp l op).2 = (l.sink (opBytes op)).2) ∧
    (∀ (l : LCD) (bytes : List Nat), (l.Raw bytes).2 = (l.sink bytes).2) := by
  constructor
  · intro l op; cases op <;> rfl
  · intro l bytes; rfl

/-- C9: the glyph compiler is deterministic: equal patterns compile to the
same 8-byte result, the output depending only on the input pattern. -/
theorem makeChar_deterministic (p q : List (List Char)) (h : p = q) :
    MakeChar p = MakeChar q :=
  congrArg MakeChar h

/-- Witness for C9: determinism instantiated at the concrete all-off
pattern, with the equal-pattern hypothesis discharged by rfl. -/
theorem makeChar_deterministic_witness :
    MakeChar (List.replicate 8 (List.replicate 5 '.')) =
      MakeChar (List.replicate 8 (List.replicate 5 '.')) :=
  makeChar_deterministic _ _ rfl

/-- C10: CreateCustomChar performs no range check on the slot argument:
for every slot byte and every 8-byte glyph it performs one write of
0xFE, 0x4E, slot followed by the glyph bytes verbatim, and returns only
the sink's write result, never a validation error. -/
theorem createCustomChar_no_validation (l : LCD) (spot : Nat) (c : List Nat)
    (hc : c.length = 8) :
    l.CreateCustomChar spot c =
      ([COMMAND :: CREATE_CUSTOM_CHARACTER :: spot :: c],
        (l.sink (COMMAND :: CREATE_CUSTOM_CHARACTER :: spot :: c)).2) :=
  rfl

/-- Witness for C10: at the concrete slot 200, a value greater than 7, the
command is emitted with the slot byte verbatim and a nil error. -/
theorem createCustomChar_no_validation_witness :
    okSink.CreateCustomChar 200 [1, 2, 3, 4, 5, 6, 7, 8] =
      ([[0xFE, 0x4E, 200, 1, 2, 3, 4, 5, 6, 7, 8]], none) := by
  have h := createCustomChar_no_validation okSink 200 [1, 2, 3, 4, 5, 6, 7, 8]
    (by decide)
  simpa [okSink, COMMAND, CREATE_CUSTOM_CHARACTER] using h

/-- C3: for every underline-cursor state byte (0x4A or 0x4B) and
block-cursor state byte (0x53 or 0x54), SetCursor performs one single
write of the two framed commands back to back, 0xFE, u, 0xFE, b, never
merged into one frame; in particular with underline off and block off the
write is exactly 0xFE, 0x4B, 0xFE, 0x54. -/
theorem setCursor_two_frames :
    (∀ (l : LCD) (u b : Nat), (u = 0x4A ∨ u = 0x4B) → (b = 0x53 ∨ b = 0x54) →
        l.SetCursor u b = ([[0xFE, u, 0xFE, b]], (l.sink [0xFE, u, 0xFE, b]).2)) ∧
    (∀ l : LCD, (l.SetCursor UNDERLINE_CURSOR_OFF BLOCK_CURSOR_OFF).1 =
        [[0xFE, 0x4B, 0xFE, 0x54]]) :=
  ⟨fun _ _ _ _ _ => rfl, fun _ => rfl⟩

/-- Witness for C3: SetCursor with underline off (0x4B) and block off
(0x54) on the concrete sink emits exactly the four bytes in one write. -/
theorem setCursor_two_frames_witness :
    okSink.SetCursor 0x4B 0x54 = ([[0xFE, 0x4B, 0xFE, 0x54]], none) := by
  have h := setCursor_two_frames.1 okSink 0x4B 0x54 (Or.inr rfl) (Or.inr rfl)
  simpa [okSink] using h

/-- C4 counterexample: the single write performed by CreateCustomChar with
slot 0 and the all-zero glyph does not have 10 bytes (it has 11: prefix,
opcode, slot and the 8 glyph bytes). -/
theorem createCustomChar_ten_bytes_counterexample :
    ¬ ((okSink.CreateCustomChar 0 [0, 0, 0, 0, 0, 0, 0, 0]).1.headD []).length = 10 := by
  decide

/-- C4 (amended): CreateCustomChar with slot 0 and the all-zero glyph
performs one write of exactly 0xFE, 0x4E, 0x00 followed by the eight zero
glyph bytes, which is 11 bytes total. -/
theorem createCustomChar_zero_glyph (l : LCD) :
    l.CreateCustomChar 0 [0, 0, 0, 0, 0, 0, 0, 0] =
      ([[0xFE, 0x4E, 0, 0, 0, 0, 0, 0, 0, 0, 0]],
        (l.sink [0xFE, 0x4E, 0, 0, 0, 0, 0, 0, 0, 0, 0]).2) ∧
    ([0xFE, 0x4E, 0, 0, 0, 0, 0, 0, 0, 0, 0] : List Nat).length = 11 :=
  ⟨rfl, rfl⟩

/-- C5: MakeChar computes each output byte from the input row of the same
index by the left-to-right shift-and-or scan of makeCharRow; a pattern of
all off markers compiles to 8 zero bytes, and a pattern of all on markers
with exactly 5 characters per row compiles to 8 bytes of value 0x1F. -/
theorem makeChar_rows :
    (∀ (lines : List (List Char)) (i : Nat),
        (MakeChar lines)[i]? = (lines[i]?).map makeCharRow) ∧
    MakeChar (List.replicate 8 (List.replicate 5 '.')) = List.replicate 8 0 ∧
    MakeChar (List.replicate 8 (List.replicate 5 '*')) = List.replicate 8 0x1F := by
  refine ⟨fun lines i => ?_, by decide, by decide⟩
  simp [MakeChar, List.getElem?_map]

/-- C6: MakeChar raises no error for malformed row lengths: it always
produces one byte per row and each byte stays in range; appending extra
off characters to a row shifts the earlier characters' bits up and out of
the byte (truncation modulo 256), and a row shorter than the byte width
yields a value below 2 ^ length, the bits of the missing characters being
implicitly zero. -/
theorem makeChar_lenient :
    (∀ lines : List (List Char), (MakeChar lines).length = lines.length) ∧
    (∀ line : List Char, makeCharRow line < 256) ∧
    (∀ (line ext : List Char), (∀ c ∈ ext, c = '.' ∨ c = ' ') →
        makeCharRow (line ++ ext) = (makeCharRow line * 2 ^ ext.length) % 256) ∧
    (∀ line : List Char, line.length ≤ 8 → makeCharRow line < 2 ^ line.length) := by
  refine ⟨fun lines => ?_, makeCharRow_lt, fun line ext hoff => ?_, makeCharRow_lt_pow⟩
  · simp [MakeChar]
  · unfold makeCharRow
    rw [List.foldl_append]
    exact foldl_charStep_off ext (line.foldl charStep 0)
      (foldl_charStep_lt line 0 (by norm_num)) hoff

/-- Witness for C6: a lit first pixel followed by eight off characters is
shifted entirely out of the row byte, and a 2-character row compiles to a
value below 4. -/
theorem makeChar_lenient_witness :
    makeCharRow (['*'] ++ List.replicate 8 '.') = 0 ∧
    makeCharRow ['*', '*'] < 2 ^ 2 := by
  constructor
  · have h := makeChar_lenient.2.2.1 ['*'] (List.replicate 8 '.') (by decide)
    rw [h]
    decide
  · exact makeChar_lenient.2.2.2 ['*', '*'] (by decide)

end SerialLcd
